import Mathlib

/-!
# Olive / Chestnut: project panel, sequence setters and preset store

A shallow embedding of the parts of the editor that the specification talks
about:

* `Project::add_recent_project`, `Project::getImportedMedia` and
  `Project::get_next_sequence_name` from `app/panels/project.cpp`;
* the value checks of `Sequence::setWidth`, `Sequence::setHeight` and
  `Sequence::setAudioFrequency`, whose bodies live in `project/sequence.cpp`
  (only `project/UnitTest/sequencetest.cpp` is available);
* the preset store of `app/database.cpp`.

Qt containers are lists, `QString` is `String`, C++ `int` is `Int` (or `Nat`
for sizes and row ids, which are never negative).
-/

set_option autoImplicit false

namespace Olive

/-! ## Recent projects (`app/panels/project.cpp`) -/

/-- The constant `MAXIMUM_RECENT_PROJECTS` of `project.cpp`. -/
def MAXIMUM_RECENT_PROJECTS : Nat := 10

/-- The scan of `add_recent_project`: the first index `i` (counted from `i`)
with `url == recent_projects.at(i)`, or `none` when the loop ends with
`found == false`. -/
def findRecent (url : String) : List String → Nat → Option Nat
  | [], _ => none
  | x :: xs, i => if url = x then some i else findRecent url xs (i + 1)

/-- The call `QList::move(i, 0)`: the element at index `i` is taken out and put
back at the front. Only called with a valid `i`. -/
def moveToFront (l : List String) (i : Nat) : List String :=
  match l[i]? with
  | some x => x :: l.eraseIdx i
  | none => l

/-- The function `Project::add_recent_project` as a function on the global
`recent_projects` list (writing the list to disk does not change it). -/
def add_recent_project (recent_projects : List String) (url : String) : List String :=
  match findRecent url recent_projects 0 with
  | some i => moveToFront recent_projects i
  | none =>
    let inserted := url :: recent_projects
    if inserted.length > MAXIMUM_RECENT_PROJECTS then inserted.dropLast else inserted

/-! ## Imported media (`app/panels/project.cpp`) -/

/-- What a read of the imported-media store can do: deliver the stored pointer,
deliver the default-constructed (null) pointer, or index the vector outside
`0 <= i < size()`, which `QVector::at` forbids. -/
inductive Fetched (α : Type) where
  | ptr (item : α)
  | null
  | outOfRange
  deriving DecidableEq, Repr

/-- The call `QVector::at(i)`, defined for `0 <= i < size()` only. -/
def qvectorAt {α : Type} (v : List α) (i : Int) : Fetched α :=
  if 0 ≤ i then
    match v[i.toNat]? with
    | some item => .ptr item
    | none => .outOfRange
  else .outOfRange

/-- The function `Project::getMediaSize`. -/
def getMediaSize {α : Type} (last_imported_media : List α) : Int :=
  last_imported_media.length

/-- The function `Project::getImportedMedia`: the guard is
`last_imported_media.size() >= index`. -/
def getImportedMedia {α : Type} (last_imported_media : List α) (index : Int) : Fetched α :=
  if (last_imported_media.length : Int) ≥ index then
    qvectorAt last_imported_media index
  else
    .null

/-! ## Sequence setters (`project/sequence.cpp`, known through its unit test) -/

/-- Modelled from the spec: the constant bounding `Sequence::setWidth`, which is
declared outside the available sources; 4096 is "accepted as the maximum". -/
def MAXIMUM_WIDTH : Int := 4096

/-- Modelled from the spec: the constant bounding `Sequence::setHeight`, which is
declared outside the available sources; 2160 is "accepted as the maximum". -/
def MAXIMUM_HEIGHT : Int := 2160

/-- Modelled from the spec: the constant bounding `Sequence::setAudioFrequency`,
which is declared outside the available sources. -/
def MAXIMUM_FREQUENCY : Int := 192000

/-- Modelled from the spec: the return value of `Sequence::setWidth`, whose body
(`project/sequence.cpp`) is missing. The value is accepted when it is even (the
C++ test `val % 2 == 0`, a truncating remainder), positive and at most
`MAXIMUM_WIDTH`. The spec does not say what happens for `0`; `zeroAccepted`
stands for that answer. -/
def setWidth (zeroAccepted : Bool) (val : Int) : Bool :=
  if val = 0 then zeroAccepted
  else decide (val.tmod 2 = 0) && decide (0 < val) && decide (val ≤ MAXIMUM_WIDTH)

/-- Modelled from the spec: the return value of `Sequence::setHeight`, whose body
(`project/sequence.cpp`) is missing. Same shape as `setWidth` with
`MAXIMUM_HEIGHT`; `zeroAccepted` is the unspecified answer for `0`. -/
def setHeight (zeroAccepted : Bool) (val : Int) : Bool :=
  if val = 0 then zeroAccepted
  else decide (val.tmod 2 = 0) && decide (0 < val) && decide (val ≤ MAXIMUM_HEIGHT)

/-- Modelled from the spec: the return value of `Sequence::setAudioFrequency`,
whose body (`project/sequence.cpp`) is missing: accepted exactly from `0` to
`MAXIMUM_FREQUENCY`. -/
def setAudioFrequency (frequency : Int) : Bool :=
  decide (0 ≤ frequency) && decide (frequency ≤ MAXIMUM_FREQUENCY)

/-- The rows of `SequenceTest::testCaseSetWidths_data`. -/
def testCaseSetWidths_data : List (Int × Bool) :=
  [(-1, false), (121, false), (1920, true), (4098, false), (4096, true)]

/-- The rows of `SequenceTest::testCaseSetHeights_data`. -/
def testCaseSetHeights_data : List (Int × Bool) :=
  [(-1, false), (121, false), (1920, true), (2162, false), (2160, true)]

/-- The rows of `SequenceTest::testCaseSetFrequency_data`. -/
def testCaseSetFrequency_data : List (Int × Bool) :=
  [(-1, false), (0, true), (48000, true), (192000, true), (1000000, false)]

/-! ## Next sequence name (`app/panels/project.cpp`) -/

/-- The call `tr("...")` with no translation catalogue installed: the source
text is returned. -/
def tr (sourceText : String) : String := sourceText

/-- The test `QString::compare(a, b, Qt::CaseInsensitive) == 0`: the two strings
are equal after folding the case of every character. The folding, `foldCase`,
belongs to the string library and is a parameter. -/
def compareCaseInsensitive (foldCase : Char → Char) (a b : String) : Bool :=
  a.data.map foldCase == b.data.map foldCase

/-- The body of the `while` loop of `get_next_sequence_name` up to the scan:
`name = start + " "`, a `"0"` is appended when `n < 10`, then
`QString::number(n)`. -/
def candidateName (start : String) (n : Nat) : String :=
  let name := start ++ " "
  let name := if n < 10 then name ++ "0" else name
  name ++ toString n

/-- The `for` loop over `Project::model().child(i)->name()`: true when some
top-level item has the name `name`, ignoring case (`found = true`). -/
def nameTaken (foldCase : Char → Char) (children : List String) (name : String) : Bool :=
  children.any fun child => compareCaseInsensitive foldCase child name

/-- The `while (found)` loop of `get_next_sequence_name`, entered with counter
`n`; `fuel` bounds the number of iterations and `none` means it ran out. -/
def nextNameLoop (foldCase : Char → Char) (children : List String) (start : String) :
    Nat → Nat → Option String
  | 0, _ => none
  | fuel + 1, n =>
    let name := candidateName start n
    if nameTaken foldCase children name then
      nextNameLoop foldCase children start fuel (n + 1)
    else
      some name

/-- The function `Project::get_next_sequence_name`; `children` are the names of
the top-level items of the project model, in order. -/
def get_next_sequence_name (foldCase : Char → Char) (children : List String)
    (start : String) (fuel : Nat) : Option String :=
  let start := if start.isEmpty then tr "Sequence" else start
  nextNameLoop foldCase children start fuel 1

/-- The number a list of decimal digit characters stands for. -/
def decimalValue (digits : List Char) : Nat :=
  digits.foldl (fun acc c => 10 * acc + (c.toNat - 48)) 0

/-! ## Preset store (`app/database.cpp`)

The four tables created by `Database::setupEffectsTable` are lists of rows in
rowid order, the order in which SQLite scans a table. A primary key `id` is the
rowid SQLite assigns on insert; foreign key columns hold the `int` the code
binds. Statements are taken to succeed (`q.exec()` returns true), and
`Q_ASSERT` is the debug-build one: it evaluates its argument and aborts the
program, here `none`, when it is false. -/

/-- A `QVariant` as far as `database.cpp` looks at it: `type()` and
`toString()`. -/
structure QVariant where
  type : Int
  toString : String
  deriving DecidableEq, Repr

/-- The variant read back by `getPresetParameters`: `QVariant value(param_type);
value.setValue(param_value)` with a `QString` leaves a variant of type
`QVariant::String` (10) holding that string. -/
def QVariant.fromString (s : String) : QVariant := ⟨10, s⟩

/-- The type `ParamsType`, a vector of (parameter name, value) pairs. -/
abbrev ParamsType := List (String × QVariant)

/-- The type `EffectParametersType`, a `QMap` from row name to `ParamsType`,
kept as an association list with one entry per key; the map is read by key. -/
abbrev EffectParametersType := List (String × ParamsType)

/-- The type `EffectPreset` as `addNewPreset` uses it. -/
structure EffectPreset where
  effect_name_ : String
  preset_name_ : String
  parameters_ : EffectParametersType
  deriving DecidableEq, Repr

/-- A row of table `effects (id, name)`. -/
structure EffectsRow where
  id : Nat
  name : String
  deriving DecidableEq, Repr

/-- A row of table `presets (id, name, e_id)`. -/
structure PresetsRow where
  id : Nat
  name : String
  e_id : Int
  deriving DecidableEq, Repr

/-- A row of table `effect_rows (id, name, e_id)`. -/
structure EffectRowsRow where
  id : Nat
  name : String
  e_id : Int
  deriving DecidableEq, Repr

/-- A row of table `preset_parameter (id, name, value, value_type, p_id, er_id)`. -/
structure PresetParameterRow where
  id : Nat
  name : String
  value : String
  value_type : Int
  p_id : Int
  er_id : Int
  deriving DecidableEq, Repr

/-- The state of the SQLite file behind `db_`. -/
structure Database where
  effects : List EffectsRow
  presets : List PresetsRow
  effect_rows : List EffectRowsRow
  preset_parameter : List PresetParameterRow
  deriving DecidableEq, Repr

/-- The tables right after `setupEffectsTable` on a new file. -/
def Database.empty : Database := ⟨[], [], [], []⟩

/-- The rowid SQLite gives a row inserted without an id: one more than the
largest rowid in use, 1 for an empty table. -/
def nextId (ids : List Nat) : Nat := ids.foldr max 0 + 1

/-- The call `effectId(name, false)`: `SELECT id FROM effects WHERE name=?`,
the first row's id, or `-1`. -/
def selectEffectId (effects : List EffectsRow) (name : String) : Int :=
  match effects.find? (fun r => r.name == name) with
  | some r => r.id
  | none => -1

/-- The function `Database::effectId`: when the name is not found and `recurse`
is set, the effect is inserted and looked up again with `recurse = false`. -/
def effectId (db : Database) (name : String) (recurse : Bool) : Database × Int :=
  match db.effects.find? (fun r => r.name == name) with
  | some r => (db, r.id)
  | none =>
    if recurse then
      let db1 := { db with effects := db.effects ++ [⟨nextId (db.effects.map (·.id)), name⟩] }
      (db1, selectEffectId db1.effects name)
    else
      (db, -1)

/-- The call `effectRowId(name, effect_id, false)`:
`SELECT id FROM effect_rows WHERE name=? AND e_id=?`, the first row's id, or `-1`. -/
def selectEffectRowId (effect_rows : List EffectRowsRow) (name : String) (effect_id : Int) : Int :=
  match effect_rows.find? (fun r => r.name == name && r.e_id == effect_id) with
  | some r => r.id
  | none => -1

/-- The function `Database::effectRowId`. -/
def effectRowId (db : Database) (name : String) (effect_id : Int) (recurse : Bool) :
    Database × Int :=
  match db.effect_rows.find? (fun r => r.name == name && r.e_id == effect_id) with
  | some r => (db, r.id)
  | none =>
    if recurse then
      let db1 := { db with effect_rows :=
        db.effect_rows ++ [⟨nextId (db.effect_rows.map (·.id)), name, effect_id⟩] }
      (db1, selectEffectRowId db1.effect_rows name effect_id)
    else
      (db, -1)

/-- The function `Database::presetId`: `SELECT id FROM presets WHERE name=?`,
the first row's id, or `-1`. The effect is not part of the query. -/
def presetId (db : Database) (name : String) : Int :=
  match db.presets.find? (fun r => r.name == name) with
  | some r => r.id
  | none => -1

/-- The function `Database::addNewParameterPreset`: one row goes into
`preset_parameter`, with `value.toString()` and `value.type()`. -/
def addNewParameterPreset (db : Database) (preset_id row_id : Int) (name : String)
    (value : QVariant) : Database × Bool :=
  ({ db with preset_parameter := db.preset_parameter ++
      [⟨nextId (db.preset_parameter.map (·.id)), name, value.toString, value.type,
        preset_id, row_id⟩] }, true)

/-- The inner loop of `addNewPreset`:
`for (param : params) Q_ASSERT(addNewParameterPreset(p_id, row_id, ...))`. -/
def addParameters (db : Database) (p_id row_id : Int) : ParamsType → Option Database
  | [] => some db
  | param :: rest =>
    match addNewParameterPreset db p_id row_id param.1 param.2 with
    | (db1, true) => addParameters db1 p_id row_id rest
    | (_, false) => none

/-- The outer loop of `addNewPreset` over `value.parameters_`:
`row_id = effectRowId(row, e_id)`, `Q_ASSERT(row_id >= 0)`, then the inner loop.
The flag `rowRecurse` is the default of `effectRowId`'s last argument, declared
in `database.h`. -/
def addRows (rowRecurse : Bool) (db : Database) (p_id e_id : Int) :
    EffectParametersType → Option Database
  | [] => some db
  | (row, params) :: rest =>
    match effectRowId db row e_id rowRecurse with
    | (db1, row_id) =>
      if row_id ≥ 0 then
        match addParameters db1 p_id row_id params with
        | some db2 => addRows rowRecurse db2 p_id e_id rest
        | none => none
      else none

/-- The function `Database::addNewPreset`; the result is the returned flag and
the new state, or `none` when an assertion stops the program. The flags
`effectRecurse` and `rowRecurse` are the defaults of the last argument of
`effectId` and `effectRowId`, declared in `database.h`. -/
def addNewPreset (effectRecurse rowRecurse : Bool) (db : Database) (value : EffectPreset) :
    Option (Bool × Database) :=
  match effectId db value.effect_name_ effectRecurse with
  | (db1, e_id) =>
    if e_id ≥ 0 then
      let db2 := { db1 with presets := db1.presets ++
        [⟨nextId (db1.presets.map (·.id)), value.preset_name_, e_id⟩] }
      let p_id := presetId db2 value.preset_name_
      if p_id ≥ 0 then
        match addRows rowRecurse db2 p_id e_id value.parameters_ with
        | some db3 => some (true, db3)
        | none => none
      else none
    else none

/-- A row of the result set of the query of `getPresetParameters`:
`preset_parameter.name`, `.value`, `.value_type`, `effect_rows.name`, and
`effect_rows.id`, the sort key. -/
structure ParameterRecord where
  name : String
  value : String
  value_type : Int
  row_name : String
  row_id : Nat
  deriving DecidableEq, Repr

/-- The records one row `pp` of `preset_parameter` contributes to the query of
`getPresetParameters`: `JOIN presets ON pp.p_id = presets.id`,
`JOIN effects ON presets.e_id = effects.id`,
`JOIN effect_rows ON pp.er_id = effect_rows.id`, then
`WHERE presets.name=? AND effects.name=?`. -/
def joinOne (db : Database) (preset_name effect_name : String) (pp : PresetParameterRow) :
    List ParameterRecord :=
  (db.presets.filter fun pr => pp.p_id == (pr.id : Int)).flatMap fun pr =>
    (db.effects.filter fun e => pr.e_id == (e.id : Int)).flatMap fun e =>
      (db.effect_rows.filter fun er => pp.er_id == (er.id : Int)).flatMap fun er =>
        if pr.name == preset_name && e.name == effect_name then
          [⟨pp.name, pp.value, pp.value_type, er.name, er.id⟩]
        else []

/-- The `FROM ... JOIN ... WHERE ...` part of the query of `getPresetParameters`,
scanning `preset_parameter` in rowid order. -/
def joinPresetParameters (db : Database) (preset_name effect_name : String) :
    List ParameterRecord :=
  db.preset_parameter.flatMap (joinOne db preset_name effect_name)

/-- One step of `ORDER BY effect_rows.id`: a record goes in front of the first
record whose key is not smaller. -/
def insertByRowId (r : ParameterRecord) : List ParameterRecord → List ParameterRecord
  | [] => [r]
  | s :: rest => if r.row_id ≤ s.row_id then r :: s :: rest else s :: insertByRowId r rest

/-- The clause `ORDER BY effect_rows.id`; records with the same key keep their
order. -/
def orderByRowId : List ParameterRecord → List ParameterRecord
  | [] => []
  | r :: rest => insertByRowId r (orderByRowId rest)

/-- The statement `preset_params[row_name].append(pair)` on the `QMap`: the
entry of `row_name` is created when it is missing. -/
def appendAt (m : EffectParametersType) (row_name : String) (pair : String × QVariant) :
    EffectParametersType :=
  match m with
  | [] => [(row_name, [pair])]
  | (k, v) :: rest =>
    if k = row_name then (k, v ++ [pair]) :: rest else (k, v) :: appendAt rest row_name pair

/-- The function `Database::getPresetParameters`: the `while (q.next())` loop
over the ordered result set. After the `if (new_row)` block `row_name` is the
record's row name in every round. -/
def getPresetParameters (db : Database) (effect_name preset_name : String) :
    EffectParametersType :=
  (orderByRowId (joinPresetParameters db preset_name effect_name)).foldl
    (fun preset_params r => appendAt preset_params r.row_name (r.name, QVariant.fromString r.value))
    []

/-- The function `Database::getPresets`: the names of the presets stored for an
effect, `SELECT presets.name FROM presets JOIN effects ON presets.e_id =
effects.id WHERE effects.name=?`. -/
def getPresets (db : Database) (effect_name : String) : List String :=
  db.presets.flatMap fun pr =>
    (db.effects.filter fun e => pr.e_id == (e.id : Int)).flatMap fun e =>
      if e.name == effect_name then [pr.name] else []

/-- The schema's constraints on a state, as far as the preset round trip needs
them: the tables `effects`, `presets` and `effect_rows` are listed by strictly
increasing primary key, and every `preset_parameter.p_id` is the id of a row of
`presets` (`FOREIGN KEY (p_id) REFERENCES presets(id)`). -/
structure Database.WellFormed (db : Database) : Prop where
  effects_key : db.effects.Pairwise fun a b => a.id < b.id
  presets_key : db.presets.Pairwise fun a b => a.id < b.id
  effect_rows_key : db.effect_rows.Pairwise fun a b => a.id < b.id
  p_id_references : ∀ pp ∈ db.preset_parameter, ∃ pr ∈ db.presets, pp.p_id = (pr.id : Int)

/-- A preset of effect "Blur" named "Soft" with two rows. -/
def presetBlurSoft : EffectPreset :=
  ⟨"Blur", "Soft", [("radius", [("x", ⟨6, "1.5"⟩), ("y", ⟨2, "7"⟩)]), ("mode", [("kind", ⟨10, "box"⟩)])]⟩

/-- The store after `addNewPreset(presetBlurSoft)` on a new file. -/
def storeBlurSoft : Database :=
  { effects := [⟨1, "Blur"⟩]
    presets := [⟨1, "Soft", 1⟩]
    effect_rows := [⟨1, "radius", 1⟩, ⟨2, "mode", 1⟩]
    preset_parameter := [⟨1, "x", "1.5", 6, 1, 1⟩, ⟨2, "y", "7", 2, 1, 1⟩, ⟨3, "kind", "box", 10, 1, 2⟩] }

/-- A preset of another effect, "Glow", with the same preset name "Soft". -/
def presetGlowSoft : EffectPreset :=
  ⟨"Glow", "Soft", [("radius", [("x", ⟨6, "2.5"⟩)])]⟩

/-- The store after `addNewPreset(presetGlowSoft)` on `storeBlurSoft`: the new
parameter row carries `p_id = 1`, the id of the preset of "Blur". -/
def storeBlurGlow : Database :=
  { effects := [⟨1, "Blur"⟩, ⟨2, "Glow"⟩]
    presets := [⟨1, "Soft", 1⟩, ⟨2, "Soft", 2⟩]
    effect_rows := [⟨1, "radius", 1⟩, ⟨2, "mode", 1⟩, ⟨3, "radius", 2⟩]
    preset_parameter := [⟨1, "x", "1.5", 6, 1, 1⟩, ⟨2, "y", "7", 2, 1, 1⟩, ⟨3, "kind", "box", 10, 1, 2⟩,
      ⟨4, "x", "2.5", 6, 1, 3⟩] }

/-- A preset whose only row has no parameters. -/
def presetEmptyRow : EffectPreset :=
  ⟨"Blur", "Bare", [("radius", [])]⟩

/-! ## Theorems -/

/-! ### Recent projects -/

theorem findRecent_none {url : String} {l : List String} {i : Nat}
    (h : url ∉ l) : findRecent url l i = none := by
  induction l generalizing i with
  | nil => rfl
  | cons x xs ih =>
    have hx : url ≠ x := fun e => h (e ▸ List.mem_cons_self _ _)
    have hxs : url ∉ xs := fun m => h (List.mem_cons_of_mem _ m)
    simp [findRecent, hx, ih hxs]

theorem findRecent_bound {url : String} {l : List String} {i j : Nat}
    (h : findRecent url l i = some j) : i ≤ j ∧ j < i + l.length := by
  induction l generalizing i with
  | nil => simp [findRecent] at h
  | cons x xs ih =>
    unfold findRecent at h
    split at h
    · cases h
      simp
    · have := ih h
      simp only [List.length_cons]
      omega

theorem length_moveToFront (l : List String) (i : Nat) :
    (moveToFront l i).length = l.length := by
  unfold moveToFront
  cases hi : l[i]? with
  | none => rfl
  | some x =>
    have hlt : i < l.length := by
      rcases List.getElem?_eq_some_iff.mp hi with ⟨h, _⟩
      exact h
    simp [List.length_eraseIdx, hlt]
    omega

/-- C9: when the recent-projects list holds at most `MAXIMUM_RECENT_PROJECTS`
entries before `add_recent_project`, it holds at most that many afterwards; and
when `url` is new and the list is full, the result is `url` followed by the old
list without its last entry, so only the last entry is dropped. -/
theorem add_recent_project_bounded (recent_projects : List String) (url : String)
    (h : recent_projects.length ≤ MAXIMUM_RECENT_PROJECTS) :
    (add_recent_project recent_projects url).length ≤ MAXIMUM_RECENT_PROJECTS ∧
    (url ∉ recent_projects → recent_projects.length = MAXIMUM_RECENT_PROJECTS →
      add_recent_project recent_projects url = url :: recent_projects.dropLast ∧
      ∀ x ∈ recent_projects.dropLast, x ∈ add_recent_project recent_projects url) := by
  constructor
  · unfold add_recent_project
    cases hf : findRecent url recent_projects 0 with
    | some i => simpa [length_moveToFront] using h
    | none =>
      simp only [List.length_cons]
      split
      · simp [List.length_dropLast]
        exact h
      · simp only [List.length_cons]
        omega
  · intro hnew hfull
    have hres : add_recent_project recent_projects url = url :: recent_projects.dropLast := by
      unfold add_recent_project
      rw [findRecent_none hnew]
      have hne : recent_projects ≠ [] := by
        intro e
        rw [e] at hfull
        simp [MAXIMUM_RECENT_PROJECTS] at hfull
      simp only [List.length_cons, hfull]
      rw [if_pos (Nat.lt_succ_self _)]
      cases recent_projects with
      | nil => exact absurd rfl hne
      | cons y ys => rfl
    refine ⟨hres, ?_⟩
    intro x hx
    rw [hres]
    exact List.mem_cons_of_mem _ hx

/-- Witness for C9: a full list of ten entries and a new URL. -/
theorem add_recent_project_bounded_witness :
    (add_recent_project ["a", "b", "c", "d", "e", "f", "g", "h", "i", "j"] "k").length
        ≤ MAXIMUM_RECENT_PROJECTS ∧
      add_recent_project ["a", "b", "c", "d", "e", "f", "g", "h", "i", "j"] "k"
        = ["k", "a", "b", "c", "d", "e", "f", "g", "h", "i"] := by
  have h := add_recent_project_bounded ["a", "b", "c", "d", "e", "f", "g", "h", "i", "j"] "k"
    (by decide)
  exact ⟨h.1, (h.2 (by decide) (by decide)).1⟩

/-! ### Imported media -/

theorem getImportedMedia_in_range {α : Type} (l : List α) (i : Nat) (h : i < l.length) :
    getImportedMedia l (i : Int) = .ptr (l.get ⟨i, h⟩) := by
  have h1 : (l.length : Int) ≥ (i : Int) := by exact_mod_cast h.le
  simp [getImportedMedia, qvectorAt, h1, List.getElem?_eq_getElem h]

theorem getImportedMedia_above_size {α : Type} (l : List α) (index : Int)
    (h : (l.length : Int) < index) : getImportedMedia l index = .null := by
  have h1 : ¬ (l.length : Int) ≥ index := by omega
  simp [getImportedMedia, h1]

/-- C7 (what the code does where the claim asks for a null pointer): for every
stored list, `getImportedMedia` at `index == getMediaSize()` and at every
negative index passes the guard `size() >= index` and indexes the vector outside
`0 <= i < size()` instead of returning null. -/
theorem getImportedMedia_reads_outside {α : Type} (l : List α) (k : Nat) :
    getImportedMedia l (getMediaSize l) = .outOfRange ∧
    getImportedMedia l (-((k : Int) + 1)) = .outOfRange := by
  constructor
  · simp [getImportedMedia, getMediaSize, qvectorAt]
  · have h1 : (l.length : Int) ≥ -((k : Int) + 1) := by omega
    have h2 : ¬ (0 : Int) ≤ -((k : Int) + 1) := by omega
    simp only [getImportedMedia, qvectorAt, h1, h2, if_true, if_false]

/-- C7 at the failing input: with nothing imported, index `0` equals the size
and the read falls outside the (empty) list. -/
theorem getImportedMedia_empty_zero :
    getImportedMedia ([] : List String) 0 = .outOfRange := by
  decide

/-! ### Sequence setters -/

theorem tmod_two_eq_zero_iff_even {w : Int} (h : 0 < w) : w.tmod 2 = 0 ↔ Even w := by
  rw [Int.tmod_eq_emod (le_of_lt h) (by decide), Int.even_iff]

/-- C1: `setWidth` returns false for a negative, an odd or a too large width
(above 4096) and true for every even width with `0 < w <= 4096`. -/
theorem setWidth_contract (zeroAccepted : Bool) (w : Int) :
    ((w < 0 ∨ Odd w ∨ 4096 < w) → setWidth zeroAccepted w = false) ∧
    ((Even w ∧ 0 < w ∧ w ≤ 4096) → setWidth zeroAccepted w = true) := by
  constructor
  · rintro (h | h | h)
    · have h0 : w ≠ 0 := by omega
      have h1 : ¬ 0 < w := by omega
      simp [setWidth, h0, h1]
    · have h0 : w ≠ 0 := by
        rintro rfl
        exact absurd h (by decide)
      by_cases hp : 0 < w
      · have : ¬ w.tmod 2 = 0 := by
          rw [tmod_two_eq_zero_iff_even hp]
          exact Int.not_even_iff_odd.mpr h
        simp [setWidth, h0, this]
      · simp [setWidth, h0, hp]
    · have h0 : w ≠ 0 := by omega
      have h1 : ¬ w ≤ MAXIMUM_WIDTH := by
        unfold MAXIMUM_WIDTH
        omega
      simp [setWidth, h0, h1]
  · rintro ⟨he, hp, hle⟩
    have h0 : w ≠ 0 := by omega
    have h1 : w.tmod 2 = 0 := (tmod_two_eq_zero_iff_even hp).mpr he
    have h2 : w ≤ MAXIMUM_WIDTH := hle
    simp [setWidth, h0, h1, hp, h2]

/-- Witness for C1: 4098 is rejected and 4096 is accepted. -/
theorem setWidth_contract_witness :
    setWidth false 4098 = false ∧ setWidth false 4096 = true :=
  ⟨(setWidth_contract false 4098).1 (Or.inr (Or.inr (by decide))),
   (setWidth_contract false 4096).2 ⟨by decide, by decide, by decide⟩⟩

/-- The model of `setWidth` passes every row of the unit test, whatever it
answers for `0`. -/
theorem setWidth_passes_test (zeroAccepted : Bool) :
    ∀ row ∈ testCaseSetWidths_data, setWidth zeroAccepted row.1 = row.2 := by
  cases zeroAccepted <;> decide

/-- C2: `setHeight` returns false for a negative, an odd or a too large height
(above 2160) and true for every even height with `0 < h <= 2160`. -/
theorem setHeight_contract (zeroAccepted : Bool) (h : Int) :
    ((h < 0 ∨ Odd h ∨ 2160 < h) → setHeight zeroAccepted h = false) ∧
    ((Even h ∧ 0 < h ∧ h ≤ 2160) → setHeight zeroAccepted h = true) := by
  constructor
  · rintro (hn | ho | hb)
    · have h0 : h ≠ 0 := by omega
      have h1 : ¬ 0 < h := by omega
      simp [setHeight, h0, h1]
    · have h0 : h ≠ 0 := by
        rintro rfl
        exact absurd ho (by decide)
      by_cases hp : 0 < h
      · have : ¬ h.tmod 2 = 0 := by
          rw [tmod_two_eq_zero_iff_even hp]
          exact Int.not_even_iff_odd.mpr ho
        simp [setHeight, h0, this]
      · simp [setHeight, h0, hp]
    · have h0 : h ≠ 0 := by omega
      have h1 : ¬ h ≤ MAXIMUM_HEIGHT := by
        unfold MAXIMUM_HEIGHT
        omega
      simp [setHeight, h0, h1]
  · rintro ⟨he, hp, hle⟩
    have h0 : h ≠ 0 := by omega
    have h1 : h.tmod 2 = 0 := (tmod_two_eq_zero_iff_even hp).mpr he
    have h2 : h ≤ MAXIMUM_HEIGHT := hle
    simp [setHeight, h0, h1, hp, h2]

/-- Witness for C2: 2162 is rejected and 2160 is accepted. -/
theorem setHeight_contract_witness :
    setHeight false 2162 = false ∧ setHeight false 2160 = true :=
  ⟨(setHeight_contract false 2162).1 (Or.inr (Or.inr (by decide))),
   (setHeight_contract false 2160).2 ⟨by decide, by decide, by decide⟩⟩

/-- The model of `setHeight` passes every row of the unit test, whatever it
answers for `0`. -/
theorem setHeight_passes_test (zeroAccepted : Bool) :
    ∀ row ∈ testCaseSetHeights_data, setHeight zeroAccepted row.1 = row.2 := by
  cases zeroAccepted <;> decide

/-- C3: `setAudioFrequency` returns true exactly when `0 <= f <= 192000`. -/
theorem setAudioFrequency_contract (f : Int) :
    setAudioFrequency f = true ↔ (0 ≤ f ∧ f ≤ 192000) := by
  simp [setAudioFrequency, MAXIMUM_FREQUENCY]

/-- The model of `setAudioFrequency` passes every row of the unit test. -/
theorem setAudioFrequency_passes_test :
    ∀ row ∈ testCaseSetFrequency_data, setAudioFrequency row.1 = row.2 := by
  decide

/-! ### Next sequence name -/

theorem toDigitsCore_append (fuel n : Nat) (ds : List Char) :
    Nat.toDigitsCore 10 fuel n ds = Nat.toDigitsCore 10 fuel n [] ++ ds := by
  induction fuel generalizing n ds with
  | zero => simp [Nat.toDigitsCore]
  | succ fuel ih =>
    simp only [Nat.toDigitsCore]
    split
    · simp
    · rw [ih (n / 10) (Nat.digitChar (n % 10) :: ds), ih (n / 10) [Nat.digitChar (n % 10)]]
      simp

theorem digitChar_isDigit (k : Nat) (h : k < 10) : (Nat.digitChar k).isDigit = true := by
  interval_cases k <;> rfl

theorem digitChar_value (k : Nat) (h : k < 10) : (Nat.digitChar k).toNat - 48 = k := by
  interval_cases k <;> rfl

theorem decimalValue_append_singleton (l : List Char) (c : Char) :
    decimalValue (l ++ [c]) = 10 * decimalValue l + (c.toNat - 48) := by
  simp [decimalValue, List.foldl_append]

theorem decimalValue_toDigitsCore (fuel n : Nat) (h : n < fuel) :
    decimalValue (Nat.toDigitsCore 10 fuel n []) = n := by
  induction fuel generalizing n with
  | zero => omega
  | succ fuel ih =>
    simp only [Nat.toDigitsCore]
    split
    · rename_i h0
      have hn : n % 10 = n := by omega
      have hv := digitChar_value (n % 10) (Nat.mod_lt _ (by decide))
      rw [hn] at hv
      simp [decimalValue, hn, hv]
    · rename_i h0
      rw [toDigitsCore_append, decimalValue_append_singleton,
        ih (n / 10) (by omega), digitChar_value (n % 10) (Nat.mod_lt _ (by decide))]
      omega

theorem isDigit_toDigitsCore (fuel n : Nat) :
    ∀ c ∈ Nat.toDigitsCore 10 fuel n [], c.isDigit = true := by
  induction fuel generalizing n with
  | zero => simp [Nat.toDigitsCore]
  | succ fuel ih =>
    simp only [Nat.toDigitsCore]
    split
    · intro c hc
      simp only [List.mem_singleton] at hc
      rw [hc]
      exact digitChar_isDigit _ (Nat.mod_lt _ (by decide))
    · rw [toDigitsCore_append]
      intro c hc
      rcases List.mem_append.mp hc with hc | hc
      · exact ih _ c hc
      · simp only [List.mem_singleton] at hc
        rw [hc]
        exact digitChar_isDigit _ (Nat.mod_lt _ (by decide))

/-- The characters `candidateName` puts after `start ++ " "`. -/
theorem candidateName_data (start : String) (n : Nat) :
    (candidateName start n).data =
      start.data ++ ' ' :: ((if n < 10 then ['0'] else []) ++ Nat.toDigits 10 n) := by
  have hd : (toString n).data = Nat.toDigits 10 n := rfl
  unfold candidateName
  by_cases h : n < 10
  · simp [h, String.data_append, hd]
  · simp [h, String.data_append, hd]

theorem decimalValue_suffix (n : Nat) :
    decimalValue ((if n < 10 then ['0'] else []) ++ Nat.toDigits 10 n) = n := by
  have hv : decimalValue (Nat.toDigits 10 n) = n :=
    decimalValue_toDigitsCore (n + 1) n (Nat.lt_succ_self n)
  by_cases h : n < 10
  · simp only [h, if_true]
    have : decimalValue (['0'] ++ Nat.toDigits 10 n) = decimalValue (Nat.toDigits 10 n) := by
      simp [decimalValue]
    rw [this, hv]
  · simpa [h] using hv

theorem isDigit_suffix (n : Nat) :
    ∀ c ∈ (if n < 10 then ['0'] else []) ++ Nat.toDigits 10 n, c.isDigit = true := by
  intro c hc
  rcases List.mem_append.mp hc with hc | hc
  · by_cases h : n < 10
    · simp only [h, if_true, List.mem_singleton] at hc
      rw [hc]
      rfl
    · simp [h] at hc
  · exact isDigit_toDigitsCore _ _ c hc

theorem map_injOn_digits {foldCase : Char → Char}
    (hfold : ∀ c d : Char, c.isDigit = true → d.isDigit = true → foldCase c = foldCase d → c = d) :
    ∀ l₁ l₂ : List Char, (∀ c ∈ l₁, c.isDigit = true) → (∀ c ∈ l₂, c.isDigit = true) →
      l₁.map foldCase = l₂.map foldCase → l₁ = l₂ := by
  intro l₁
  induction l₁ with
  | nil =>
    intro l₂ _ _ h
    cases l₂ with
    | nil => rfl
    | cons b t => simp at h
  | cons a s ih =>
    intro l₂ h₁ h₂ h
    cases l₂ with
    | nil => simp at h
    | cons b t =>
      simp only [List.map_cons, List.cons.injEq] at h
      have hab : a = b :=
        hfold a b (h₁ a (List.mem_cons_self _ _)) (h₂ b (List.mem_cons_self _ _)) h.1
      have hst : s = t :=
        ih t (fun c hc => h₁ c (List.mem_cons_of_mem _ hc))
          (fun c hc => h₂ c (List.mem_cons_of_mem _ hc)) h.2
      rw [hab, hst]

/-- Two candidate names that are equal ignoring case carry the same counter. -/
theorem candidateName_fold_inj {foldCase : Char → Char}
    (hfold : ∀ c d : Char, c.isDigit = true → d.isDigit = true → foldCase c = foldCase d → c = d)
    (start : String) (n m : Nat)
    (h : (candidateName start n).data.map foldCase = (candidateName start m).data.map foldCase) :
    n = m := by
  rw [candidateName_data, candidateName_data] at h
  simp only [List.map_append, List.map_cons] at h
  have h1 := List.append_cancel_left h
  simp only [List.cons.injEq, true_and] at h1
  rw [← List.map_append, ← List.map_append] at h1
  have h2 := map_injOn_digits hfold _ _ (isDigit_suffix n) (isDigit_suffix m) h1
  have h3 := congrArg decimalValue h2
  rwa [decimalValue_suffix, decimalValue_suffix] at h3

theorem nameTaken_iff (foldCase : Char → Char) (children : List String) (name : String) :
    nameTaken foldCase children name = true ↔
      ∃ c ∈ children, compareCaseInsensitive foldCase c name = true := by
  simp [nameTaken, List.any_eq_true]

theorem nameTaken_false_iff (foldCase : Char → Char) (children : List String) (name : String) :
    nameTaken foldCase children name = false ↔
      ∀ c ∈ children, compareCaseInsensitive foldCase c name = false := by
  simp [nameTaken]

/-- Among the counters `1 .. childCount() + 1` one gives a name no top-level
item has: each item can block at most one counter. -/
theorem exists_free_counter {foldCase : Char → Char}
    (hfold : ∀ c d : Char, c.isDigit = true → d.isDigit = true → foldCase c = foldCase d → c = d)
    (children : List String) (start : String) :
    ∃ n, 1 ≤ n ∧ n ≤ children.length + 1 ∧
      nameTaken foldCase children (candidateName start n) = false := by
  by_contra hcon
  have hall : ∀ n ∈ Finset.Icc 1 (children.length + 1),
      nameTaken foldCase children (candidateName start n) = true := by
    intro n hn
    rcases Finset.mem_Icc.mp hn with ⟨h1, h2⟩
    by_contra hf
    exact hcon ⟨n, h1, h2, by simpa using hf⟩
  let f : Nat → Nat := fun n =>
    children.findIdx fun c => compareCaseInsensitive foldCase c (candidateName start n)
  have hmaps : ∀ n ∈ Finset.Icc 1 (children.length + 1), f n ∈ Finset.range children.length := by
    intro n hn
    exact Finset.mem_range.mpr
      (List.findIdx_lt_length_of_exists ((nameTaken_iff _ _ _).mp (hall n hn)))
  have hcard : (Finset.range children.length).card < (Finset.Icc 1 (children.length + 1)).card := by
    simp
  obtain ⟨x, hx, y, hy, hxy, hfxy⟩ := Finset.exists_ne_map_eq_of_card_lt_of_maps_to hcard hmaps
  have hx1 : f x < children.length := Finset.mem_range.mp (hmaps x hx)
  have hy1 : f y < children.length := Finset.mem_range.mp (hmaps y hy)
  have ex : compareCaseInsensitive foldCase (children[f x]) (candidateName start x) = true :=
    @List.findIdx_getElem _ _ _ hx1
  have ey : compareCaseInsensitive foldCase (children[f y]) (candidateName start y) = true :=
    @List.findIdx_getElem _ _ _ hy1
  have hget : children[f x] = children[f y] := by
    congr 1
  rw [hget] at ex
  simp only [compareCaseInsensitive, beq_iff_eq] at ex ey
  exact hxy (candidateName_fold_inj hfold start x y (ex.symm.trans ey))

/-- The loop returns the name of the first free counter at or after `n`, given
fuel for the blocked counters before it. -/
theorem nextNameLoop_eq (foldCase : Char → Char) (children : List String) (start : String)
    (fuel n m : Nat) (hnm : n ≤ m) (hfuel : m - n < fuel)
    (hfree : nameTaken foldCase children (candidateName start m) = false)
    (hblocked : ∀ k, n ≤ k → k < m → nameTaken foldCase children (candidateName start k) = true) :
    nextNameLoop foldCase children start fuel n = some (candidateName start m) := by
  induction fuel generalizing n with
  | zero => omega
  | succ fuel ih =>
    unfold nextNameLoop
    by_cases hn : n = m
    · subst hn
      simp [hfree]
    · have hlt : n < m := lt_of_le_of_ne hnm hn
      simp only [hblocked n le_rfl hlt, if_true]
      exact ih (n + 1) hlt (by omega) (fun k hk hkm => hblocked k (by omega) hkm)

theorem candidateName_eq (start : String) (n : Nat) :
    candidateName start n =
      start ++ " " ++ (if n < 10 then "0" ++ toString n else toString n) := by
  have hd : (toString n).data = Nat.toDigits 10 n := rfl
  apply String.ext
  rw [candidateName_data]
  by_cases h : n < 10
  · simp [h, String.data_append, hd]
  · simp [h, String.data_append, hd]

/-- C8: `get_next_sequence_name(start)` returns `base + " " + n` with `base` the
start string (`"Sequence"` when it is empty), `n` written in decimal with a
leading zero below 10, and `n` the smallest positive counter whose name no
top-level item has, ignoring case; so the result is the name of no top-level
item. The loop ends within `childCount() + 1` rounds, so `n <= childCount() + 1`.
The case folding of the string library only has to keep decimal digits apart. -/
theorem get_next_sequence_name_smallest_free (foldCase : Char → Char)
    (hfold : ∀ c d : Char, c.isDigit = true → d.isDigit = true → foldCase c = foldCase d → c = d)
    (children : List String) (start : String) (fuel : Nat) (hfuel : children.length < fuel) :
    ∃ n : Nat, 1 ≤ n ∧ n ≤ children.length + 1 ∧
      get_next_sequence_name foldCase children start fuel =
        some ((if start = "" then "Sequence" else start) ++ " " ++
          (if n < 10 then "0" ++ toString n else toString n)) ∧
      (∀ c ∈ children, compareCaseInsensitive foldCase c
        ((if start = "" then "Sequence" else start) ++ " " ++
          (if n < 10 then "0" ++ toString n else toString n)) = false) ∧
      (∀ m : Nat, 1 ≤ m → m < n → ∃ c ∈ children, compareCaseInsensitive foldCase c
        ((if start = "" then "Sequence" else start) ++ " " ++
          (if m < 10 then "0" ++ toString m else toString m)) = true) := by
  have hbase : (if start.isEmpty then tr "Sequence" else start)
      = (if start = "" then "Sequence" else start) := by
    by_cases h : start = ""
    · subst h
      rfl
    · have : ¬ start.isEmpty = true := fun e => h ((String.isEmpty_iff start).mp e)
      simp [h, this]
  generalize hb : (if start = "" then "Sequence" else start) = base at hbase ⊢
  have hex : ∃ n, 1 ≤ n ∧ nameTaken foldCase children (candidateName base n) = false := by
    obtain ⟨n, h1, _, h3⟩ := exists_free_counter hfold children base
    exact ⟨n, h1, h3⟩
  classical
  let n := Nat.find hex
  have hn : 1 ≤ n ∧ nameTaken foldCase children (candidateName base n) = false :=
    Nat.find_spec hex
  have hmin : ∀ m, 1 ≤ m → m < n →
      nameTaken foldCase children (candidateName base m) = true := by
    intro m hm1 hmn
    have := Nat.find_min hex hmn
    by_contra hf
    exact this ⟨hm1, by simpa using hf⟩
  have hle : n ≤ children.length + 1 := by
    obtain ⟨k, hk1, hk2, hk3⟩ := exists_free_counter hfold children base
    exact le_trans (Nat.find_min' hex ⟨hk1, hk3⟩) hk2
  refine ⟨n, hn.1, hle, ?_, ?_, ?_⟩
  · unfold get_next_sequence_name
    simp only [hbase]
    rw [nextNameLoop_eq foldCase children base fuel 1 n hn.1 (by omega) hn.2 hmin,
      candidateName_eq]
  · rw [← candidateName_eq]
    exact (nameTaken_false_iff _ _ _).mp hn.2
  · intro m hm1 hmn
    rw [← candidateName_eq]
    exact (nameTaken_iff _ _ _).mp (hmin m hm1 hmn)

theorem toLower_digits_apart :
    ∀ c d : Char, c.isDigit = true → d.isDigit = true → c.toLower = d.toLower → c = d := by
  intro c d hc hd h
  have key : ∀ e : Char, e.isDigit = true → e.toLower = e := by
    intro e he
    simp only [Char.isDigit, Bool.and_eq_true, decide_eq_true_eq] at he
    have a : e.toNat ≤ 57 := he.2
    have h1 : ¬ (e.toNat ≥ 65 ∧ e.toNat ≤ 90) := by omega
    simp only [Char.toLower, h1, if_false]
  rwa [key c hc, key d hd] at h

/-- Witness for C8: with "Sequence 01" and "SEQUENCE 02" present and an empty
start string, the next name is "Sequence 03". -/
theorem get_next_sequence_name_smallest_free_witness :
    ∃ n : Nat, 1 ≤ n ∧ n ≤ 3 ∧
      get_next_sequence_name Char.toLower ["Sequence 01", "SEQUENCE 02"] "" 3 =
        some ("Sequence" ++ " " ++ (if n < 10 then "0" ++ toString n else toString n)) := by
  obtain ⟨n, h1, h2, h3, _, _⟩ := get_next_sequence_name_smallest_free Char.toLower
    toLower_digits_apart ["Sequence 01", "SEQUENCE 02"] "" 3 (by decide)
  exact ⟨n, h1, h2, h3⟩

/-! ### Preset store -/

theorem lt_nextId {ids : List Nat} {x : Nat} (h : x ∈ ids) : x < nextId ids := by
  induction ids with
  | nil => cases h
  | cons a t ih =>
    simp only [nextId, List.foldr_cons]
    rcases List.mem_cons.mp h with rfl | h
    · omega
    · have := ih h
      simp only [nextId] at this
      omega

theorem pairwise_append_next {α : Type} (key : α → Nat) (l : List α) (x : α)
    (h : l.Pairwise fun a b => key a < key b) (hx : key x = nextId (l.map key)) :
    (l ++ [x]).Pairwise fun a b => key a < key b := by
  rw [List.pairwise_append]
  refine ⟨h, List.pairwise_singleton _ _, ?_⟩
  intro a ha b hb
  rw [List.mem_singleton] at hb
  rw [hb, hx]
  exact lt_nextId (List.mem_map_of_mem key ha)

theorem filter_key_eq_singleton {α : Type} (key : α → Nat) (l : List α)
    (h : l.Pairwise fun a b => key a < key b) (x0 : α) (hx : x0 ∈ l) (k : Int)
    (hk : k = (key x0 : Int)) :
    l.filter (fun x => k == (key x : Int)) = [x0] := by
  induction l with
  | nil => cases hx
  | cons a t ih =>
    rw [List.pairwise_cons] at h
    rcases List.mem_cons.mp hx with rfl | hx
    · have hrest : t.filter (fun x => k == (key x : Int)) = [] := by
        rw [List.filter_eq_nil_iff]
        intro b hb
        have := h.1 b hb
        simp only [beq_iff_eq, hk]
        omega
      simp [List.filter_cons, hk, hrest]
      simpa [hk] using hrest
    · have hne : ¬ k = (key a : Int) := by
        have := h.1 x0 hx
        omega
      simp only [List.filter_cons, beq_iff_eq, hne, if_false]
      exact ih h.2 hx

/-- What `effectId` leaves behind when it returns a non-negative id. -/
theorem effectId_spec {db db1 : Database} {name : String} {recurse : Bool} {e_id : Int}
    (h : effectId db name recurse = (db1, e_id)) (hpos : e_id ≥ 0)
    (hkey : db.effects.Pairwise fun a b => a.id < b.id) :
    db1.presets = db.presets ∧ db1.effect_rows = db.effect_rows ∧
    db1.preset_parameter = db.preset_parameter ∧
    (db1.effects.Pairwise fun a b => a.id < b.id) ∧
    ∃ r ∈ db1.effects, e_id = (r.id : Int) ∧ r.name = name := by
  unfold effectId at h
  cases hf : db.effects.find? (fun r => r.name == name) with
  | some r =>
    rw [hf] at h
    simp only [Prod.mk.injEq] at h
    obtain ⟨rfl, rfl⟩ := h
    refine ⟨rfl, rfl, rfl, hkey, r, List.mem_of_find?_eq_some hf, rfl, ?_⟩
    simpa using List.find?_some hf
  | none =>
    rw [hf] at h
    cases recurse with
    | false =>
      simp only [Prod.mk.injEq] at h
      obtain ⟨_, rfl⟩ := h
      omega
    | true =>
      simp only [if_true, Prod.mk.injEq] at h
      obtain ⟨rfl, rfl⟩ := h
      have hsel : selectEffectId (db.effects ++ [⟨nextId (db.effects.map (·.id)), name⟩]) name
          = (nextId (db.effects.map (·.id)) : Int) := by
        simp [selectEffectId, List.find?_append, hf]
      refine ⟨rfl, rfl, rfl, pairwise_append_next EffectsRow.id _ _ hkey rfl,
        ⟨nextId (db.effects.map (·.id)), name⟩, by simp, hsel, rfl⟩

theorem selectEffectRowId_append {l l2 : List EffectRowsRow} {name : String} {e : Int}
    (h : 0 ≤ selectEffectRowId l name e) :
    selectEffectRowId (l ++ l2) name e = selectEffectRowId l name e := by
  unfold selectEffectRowId at h ⊢
  cases hf : l.find? (fun r => r.name == name && r.e_id == e) with
  | some r => simp [List.find?_append, hf]
  | none =>
    simp [hf] at h

theorem selectEffectRowId_found {l : List EffectRowsRow} {name : String} {e : Int}
    (h : 0 ≤ selectEffectRowId l name e) :
    ∃ r ∈ l, selectEffectRowId l name e = (r.id : Int) ∧ r.name = name := by
  unfold selectEffectRowId at h ⊢
  cases hf : l.find? (fun r => r.name == name && r.e_id == e) with
  | some r =>
    refine ⟨r, List.mem_of_find?_eq_some hf, rfl, ?_⟩
    have := List.find?_some hf
    simp only [Bool.and_eq_true, beq_iff_eq] at this
    exact this.1
  | none =>
    simp [hf] at h

/-- What `effectRowId` leaves behind when it returns a non-negative id. -/
theorem effectRowId_spec {db db1 : Database} {name : String} {e : Int} {recurse : Bool}
    {row_id : Int} (h : effectRowId db name e recurse = (db1, row_id)) (hpos : row_id ≥ 0)
    (hkey : db.effect_rows.Pairwise fun a b => a.id < b.id) :
    db1.effects = db.effects ∧ db1.presets = db.presets ∧
    db1.preset_parameter = db.preset_parameter ∧
    (∃ added, db1.effect_rows = db.effect_rows ++ added) ∧
    (db1.effect_rows.Pairwise fun a b => a.id < b.id) ∧
    row_id = selectEffectRowId db1.effect_rows name e := by
  unfold effectRowId at h
  cases hf : db.effect_rows.find? (fun r => r.name == name && r.e_id == e) with
  | some r =>
    rw [hf] at h
    simp only [Prod.mk.injEq] at h
    obtain ⟨rfl, rfl⟩ := h
    refine ⟨rfl, rfl, rfl, ⟨[], by simp⟩, hkey, ?_⟩
    simp [selectEffectRowId, hf]
  | none =>
    rw [hf] at h
    cases recurse with
    | false =>
      simp only [Prod.mk.injEq] at h
      obtain ⟨_, rfl⟩ := h
      omega
    | true =>
      simp only [if_true, Prod.mk.injEq] at h
      obtain ⟨rfl, rfl⟩ := h
      exact ⟨rfl, rfl, rfl, ⟨_, rfl⟩, pairwise_append_next EffectRowsRow.id _ _ hkey rfl, rfl⟩

/-- The rows `addParameters` appends to `preset_parameter`, one per pair. -/
theorem addParameters_spec (p_id row_id : Int) (params : ParamsType) (db : Database) :
    ∃ db2 added, addParameters db p_id row_id params = some db2 ∧
      db2.effects = db.effects ∧ db2.presets = db.presets ∧
      db2.effect_rows = db.effect_rows ∧
      db2.preset_parameter = db.preset_parameter ++ added ∧
      List.Forall₂ (fun (n : PresetParameterRow) (q : String × QVariant) =>
        n.name = q.1 ∧ n.value = q.2.toString ∧ n.value_type = q.2.type ∧ n.p_id = p_id ∧
        n.er_id = row_id)
        added params := by
  induction params generalizing db with
  | nil => exact ⟨db, [], rfl, rfl, rfl, rfl, by simp, List.Forall₂.nil⟩
  | cons q rest ih =>
    obtain ⟨db2, added, h1, h2, h3, h4, h5, h6⟩ :=
      ih (addNewParameterPreset db p_id row_id q.1 q.2).1
    refine ⟨db2, ⟨nextId (db.preset_parameter.map (·.id)), q.1, q.2.toString, q.2.type,
      p_id, row_id⟩ :: added, ?_, h2, h3, h4, ?_, List.Forall₂.cons ?_ h6⟩
    · simp only [addParameters]
      exact h1
    · rw [h5]
      simp only [addNewParameterPreset, List.append_assoc, List.singleton_append]
    · exact ⟨rfl, rfl, rfl, rfl, rfl⟩

/-- What the row loop of `addNewPreset` leaves behind: `effect_rows` only grows,
and `preset_parameter` gains one row per (row, parameter) pair, in order, bound to
the id that `effectRowId(row, e_id, false)` finds in the final table. -/
theorem addRows_spec (rowRecurse : Bool) (p_id e_id : Int) (rows : EffectParametersType)
    (db db3 : Database) (h : addRows rowRecurse db p_id e_id rows = some db3)
    (hkey : db.effect_rows.Pairwise fun a b => a.id < b.id) :
    db3.effects = db.effects ∧ db3.presets = db.presets ∧
    (∃ addedRows, db3.effect_rows = db.effect_rows ++ addedRows) ∧
    (db3.effect_rows.Pairwise fun a b => a.id < b.id) ∧
    ∃ added, db3.preset_parameter = db.preset_parameter ++ added ∧
      List.Forall₂ (fun (n : PresetParameterRow) (t : String × (String × QVariant)) =>
        n.name = t.2.1 ∧ n.value = t.2.2.toString ∧ n.value_type = t.2.2.type ∧
        n.p_id = p_id ∧ n.er_id = selectEffectRowId db3.effect_rows t.1 e_id ∧
        0 ≤ selectEffectRowId db3.effect_rows t.1 e_id)
        added (rows.flatMap fun rp => rp.2.map fun q => (rp.1, q)) := by
  induction rows generalizing db with
  | nil =>
    simp only [addRows, Option.some.injEq] at h
    subst h
    exact ⟨rfl, rfl, ⟨[], by simp⟩, hkey, [], by simp, by simp⟩
  | cons rp rest ih =>
    obtain ⟨row, params⟩ := rp
    simp only [addRows] at h
    cases hE : effectRowId db row e_id rowRecurse with
    | mk db1 row_id =>
      rw [hE] at h
      simp only at h
      by_cases hpos : row_id ≥ 0
      · simp only [hpos, if_true] at h
        obtain ⟨e1, e2, e3, ⟨ar1, e4⟩, e5, e6⟩ := effectRowId_spec hE hpos hkey
        obtain ⟨db2, added1, a1, a2, a3, a4, a5, a6⟩ := addParameters_spec p_id row_id params db1
        rw [a1] at h
        simp only at h
        have hkey2 : db2.effect_rows.Pairwise fun a b => a.id < b.id := by
          rw [a4]
          exact e5
        obtain ⟨i1, i2, ⟨ar2, i3⟩, i4, added2, i5, i6⟩ := ih db2 h hkey2
        have hrow : selectEffectRowId db3.effect_rows row e_id = row_id := by
          rw [i3, a4, selectEffectRowId_append (by rw [← e6]; exact hpos), ← e6]
        refine ⟨by rw [i1, a2, e1], by rw [i2, a3, e2],
          ⟨ar1 ++ ar2, by rw [i3, a4, e4, List.append_assoc]⟩, i4, added1 ++ added2,
          by rw [i5, a5, e3, List.append_assoc], ?_⟩
        rw [List.flatMap_cons]
        apply List.rel_append
        · rw [List.forall₂_map_right_iff]
          refine List.Forall₂.imp ?_ a6
          intro n q hn
          exact ⟨hn.1, hn.2.1, hn.2.2.1, hn.2.2.2.1, by rw [hrow]; exact hn.2.2.2.2,
            by rw [hrow]; exact hpos⟩
        · exact i6
      · simp only [hpos, if_false] at h
        cases h

theorem joinOne_eq_nil (db : Database) (preset_name effect_name : String)
    (pp : PresetParameterRow)
    (h : ∀ pr ∈ db.presets, pp.p_id = (pr.id : Int) → pr.name ≠ preset_name) :
    joinOne db preset_name effect_name pp = [] := by
  unfold joinOne
  rw [List.flatMap_eq_nil_iff]
  intro pr hpr
  rw [List.mem_filter] at hpr
  have hne : pr.name ≠ preset_name := h pr hpr.1 (by simpa using hpr.2)
  simp [hne]

theorem joinOne_eq_singleton (db : Database) (preset_name effect_name : String)
    (pp : PresetParameterRow) (pr0 : PresetsRow) (e0 : EffectsRow) (er0 : EffectRowsRow)
    (hpr : db.presets.filter (fun pr => pp.p_id == (pr.id : Int)) = [pr0])
    (hprn : pr0.name = preset_name)
    (he : db.effects.filter (fun e => pr0.e_id == (e.id : Int)) = [e0])
    (hen : e0.name = effect_name)
    (her : db.effect_rows.filter (fun er => pp.er_id == (er.id : Int)) = [er0]) :
    joinOne db preset_name effect_name pp =
      [⟨pp.name, pp.value, pp.value_type, er0.name, er0.id⟩] := by
  unfold joinOne
  rw [hpr]
  simp only [List.flatMap_cons, List.flatMap_nil, List.append_nil]
  rw [he]
  simp only [List.flatMap_cons, List.flatMap_nil, List.append_nil]
  rw [her]
  simp [hprn, hen]

theorem flatMap_of_forall₂ {α β γ : Type} {R : α → β → Prop} {f : α → List γ} {g : β → γ}
    (hf : ∀ a b, R a b → f a = [g b]) {l : List α} {t : List β} (h : List.Forall₂ R l t) :
    l.flatMap f = t.map g := by
  induction h with
  | nil => rfl
  | cons hab _ ih =>
    rw [List.flatMap_cons, ih, hf _ _ hab]
    rfl

/-- Inserting by key does not move a record past another record of the same
class `P`, when the records of a class share their key. -/
theorem filter_insertByRowId (P : ParameterRecord → Bool) (r : ParameterRecord)
    (l : List ParameterRecord)
    (h : ∀ b ∈ l, P r = true → P b = true → r.row_id = b.row_id) :
    (insertByRowId r l).filter P = (r :: l).filter P := by
  induction l with
  | nil => rfl
  | cons s rest ih =>
    unfold insertByRowId
    by_cases hle : r.row_id ≤ s.row_id
    · simp only [hle, if_true]
    · simp only [hle, if_false]
      have ih2 := ih (fun b hb => h b (List.mem_cons_of_mem _ hb))
      by_cases hr : P r = true
      · have hs : ¬ P s = true := by
          intro hs
          have := h s (List.mem_cons_self _ _) hr hs
          omega
        simp only [List.filter_cons, hs, hr, if_true, if_false] at ih2 ⊢
        exact ih2
      · have hrf : P r = false := by simpa using hr
        simp only [List.filter_cons, hrf] at ih2 ⊢
        simp only [Bool.false_eq_true, if_false] at ih2 ⊢
        rw [ih2]

theorem mem_insertByRowId {r x : ParameterRecord} {l : List ParameterRecord} :
    x ∈ insertByRowId r l ↔ x = r ∨ x ∈ l := by
  induction l with
  | nil => simp [insertByRowId]
  | cons s rest ih =>
    unfold insertByRowId
    by_cases hle : r.row_id ≤ s.row_id
    · simp [hle]
    · simp only [hle, if_false, List.mem_cons, ih]
      tauto

theorem mem_orderByRowId {x : ParameterRecord} {l : List ParameterRecord} :
    x ∈ orderByRowId l ↔ x ∈ l := by
  induction l with
  | nil => simp [orderByRowId]
  | cons r rest ih => simp [orderByRowId, mem_insertByRowId, ih]

/-- The clause `ORDER BY effect_rows.id` keeps the records of one class in their
order, when the records of a class share their key. -/
theorem filter_orderByRowId (P : ParameterRecord → Bool) (l : List ParameterRecord)
    (h : ∀ a ∈ l, ∀ b ∈ l, P a = true → P b = true → a.row_id = b.row_id) :
    (orderByRowId l).filter P = l.filter P := by
  induction l with
  | nil => rfl
  | cons r rest ih =>
    have ih2 := ih (fun a ha b hb => h a (List.mem_cons_of_mem _ ha) b (List.mem_cons_of_mem _ hb))
    simp only [orderByRowId]
    rw [filter_insertByRowId P r (orderByRowId rest)
      (fun b hb => h r (List.mem_cons_self _ _) b (List.mem_cons_of_mem _ (mem_orderByRowId.mp hb)))]
    simp only [List.filter_cons, ih2]

theorem lookup_appendAt (m : EffectParametersType) (k r : String) (x : String × QVariant) :
    (appendAt m k x).lookup r =
      if k = r then some ((m.lookup r).getD [] ++ [x]) else m.lookup r := by
  induction m with
  | nil =>
    by_cases h : k = r
    · subst h
      simp [appendAt, List.lookup]
    · have h2 : (r == k) = false := by simpa using fun e => h e.symm
      simp [appendAt, List.lookup, h, h2]
  | cons kv rest ih =>
    obtain ⟨k0, v0⟩ := kv
    unfold appendAt
    by_cases h0 : k0 = k
    · subst h0
      by_cases h : k0 = r
      · subst h
        simp [List.lookup]
      · have h2 : (r == k0) = false := by simpa using fun e => h e.symm
        simp [List.lookup, h, h2]
    · simp only [h0, if_false]
      by_cases h1 : r = k0
      · subst h1
        have h3 : ¬ k = r := fun e => h0 e.symm
        simp [List.lookup, h3]
      · have h2 : (r == k0) = false := by simpa using h1
        simp only [List.lookup, h2, ih]

theorem keys_appendAt (m : EffectParametersType) (k : String) (x : String × QVariant) :
    (appendAt m k x).map Prod.fst =
      if k ∈ m.map Prod.fst then m.map Prod.fst else m.map Prod.fst ++ [k] := by
  induction m with
  | nil => simp [appendAt]
  | cons kv rest ih =>
    obtain ⟨k0, v0⟩ := kv
    unfold appendAt
    by_cases h0 : k0 = k
    · subst h0
      simp
    · have h1 : ¬ k = k0 := fun e => h0 e.symm
      simp only [h0, if_false, List.map_cons, ih, List.mem_cons, h1, false_or]
      split <;> simp

theorem nodup_keys_appendAt (m : EffectParametersType) (k : String) (x : String × QVariant)
    (h : (m.map Prod.fst).Nodup) : ((appendAt m k x).map Prod.fst).Nodup := by
  rw [keys_appendAt]
  split
  · exact h
  · rename_i hk
    rw [List.nodup_append]
    refine ⟨h, List.nodup_singleton _, ?_⟩
    intro a ha hb
    rw [List.mem_singleton] at hb
    exact hk (hb ▸ ha)

/-- The map built by the `while (q.next())` loop, read at one key: the records
of that row name, in result-set order, after what the map held before. -/
theorem lookup_foldl_appendAt (l : List ParameterRecord) (m : EffectParametersType)
    (r : String) :
    (l.foldl (fun preset_params rec =>
        appendAt preset_params rec.row_name (rec.name, QVariant.fromString rec.value)) m).lookup r =
      if l.filter (fun rec => rec.row_name == r) = [] then m.lookup r
      else some ((m.lookup r).getD [] ++
        (l.filter (fun rec => rec.row_name == r)).map
          fun rec => (rec.name, QVariant.fromString rec.value)) := by
  induction l generalizing m with
  | nil => simp
  | cons a rest ih =>
    rw [List.foldl_cons, ih, lookup_appendAt]
    by_cases ha : a.row_name = r
    · have ha2 : (a.row_name == r) = true := by simpa using ha
      simp only [ha, if_true, List.filter_cons, ha2]
      by_cases hrest : rest.filter (fun rec => rec.row_name == r) = []
      · simp [hrest]
      · simp [hrest]
    · have ha2 : (a.row_name == r) = false := by simpa using ha
      simp only [ha, if_false, List.filter_cons, ha2]
      simp

theorem nodup_keys_foldl_appendAt (l : List ParameterRecord) (m : EffectParametersType)
    (h : (m.map Prod.fst).Nodup) :
    ((l.foldl (fun preset_params rec =>
        appendAt preset_params rec.row_name (rec.name, QVariant.fromString rec.value)) m).map
      Prod.fst).Nodup := by
  induction l generalizing m with
  | nil => exact h
  | cons a rest ih =>
    rw [List.foldl_cons]
    exact ih _ (nodup_keys_appendAt m _ _ h)

theorem lookup_eq_none_of_not_mem_keys (rows : EffectParametersType) (r : String)
    (h : r ∉ rows.map Prod.fst) : rows.lookup r = none := by
  induction rows with
  | nil => rfl
  | cons kv rest ih =>
    obtain ⟨k0, v0⟩ := kv
    simp only [List.map_cons, List.mem_cons, not_or] at h
    have h2 : (r == k0) = false := by simpa using h.1
    simp only [List.lookup, h2]
    exact ih h.2

/-- The (row, parameter) pairs of a preset, read at one row name. -/
theorem filter_pairs_eq (rows : EffectParametersType) (r : String)
    (hnd : (rows.map Prod.fst).Nodup) :
    (rows.flatMap fun rp => rp.2.map fun q => (rp.1, q)).filter (fun t => t.1 == r) =
      match rows.lookup r with
      | some ps => ps.map fun q => (r, q)
      | none => [] := by
  induction rows with
  | nil => rfl
  | cons kv rest ih =>
    obtain ⟨k0, v0⟩ := kv
    simp only [List.map_cons, List.nodup_cons] at hnd
    rw [List.flatMap_cons, List.filter_append, ih hnd.2]
    by_cases h : r = k0
    · subst h
      rw [lookup_eq_none_of_not_mem_keys rest r hnd.1]
      have h3 : (v0.map fun q => (r, q)).filter (fun t => t.1 == r) = v0.map fun q => (r, q) := by
        rw [List.filter_eq_self]
        intro t ht
        rw [List.mem_map] at ht
        obtain ⟨q, _, rfl⟩ := ht
        simp
      simp [List.lookup, h3]
    · have h2 : (r == k0) = false := by simpa using h
      have h3 : (v0.map fun q => (k0, q)).filter (fun t => t.1 == r) = [] := by
        rw [List.filter_eq_nil_iff]
        intro t ht
        rw [List.mem_map] at ht
        obtain ⟨q, _, rfl⟩ := ht
        simpa using fun e => h e.symm
      simp only [List.lookup, h2, h3, List.nil_append]

/-- The state `addNewPreset` returns with, split into its steps. -/
theorem addNewPreset_steps (effectRecurse rowRecurse : Bool) (db db3 : Database)
    (p : EffectPreset) (flag : Bool)
    (hadd : addNewPreset effectRecurse rowRecurse db p = some (flag, db3)) :
    ∃ db1 e_id, effectId db p.effect_name_ effectRecurse = (db1, e_id) ∧ e_id ≥ 0 ∧
      flag = true ∧
      addRows rowRecurse
        { db1 with presets := db1.presets ++
          [⟨nextId (db1.presets.map (·.id)), p.preset_name_, e_id⟩] }
        (presetId { db1 with presets := db1.presets ++
          [⟨nextId (db1.presets.map (·.id)), p.preset_name_, e_id⟩] } p.preset_name_)
        e_id p.parameters_ = some db3 := by
  unfold addNewPreset at hadd
  cases hE : effectId db p.effect_name_ effectRecurse with
  | mk db1 e_id =>
    rw [hE] at hadd
    simp only at hadd
    by_cases hpos : e_id ≥ 0
    · simp only [hpos, if_true] at hadd
      split at hadd
      · split at hadd
        · rename_i dbx hR
          simp only [Option.some.injEq, Prod.mk.injEq] at hadd
          exact ⟨db1, e_id, rfl, hpos, hadd.1.symm, by rw [← hadd.2]; exact hR⟩
        · cases hadd
      · cases hadd
    · simp only [hpos, if_false] at hadd
      cases hadd

/-- C10 (amended): in a state that meets the schema's constraints and holds no
preset named `p.preset_name_` at all, when `addNewPreset(p)` returns true,
`getPresetParameters(p.effect_name_, p.preset_name_)` holds, for every row of
`p.parameters_` with at least one parameter, that row's
(name, value written as a string) pairs in the order given, and no entry for any
other row name; a row without parameters gets no entry. -/
theorem addNewPreset_getPresetParameters (effectRecurse rowRecurse : Bool)
    (db db3 : Database) (p : EffectPreset)
    (hwf : db.WellFormed)
    (hnew : ∀ pr ∈ db.presets, pr.name ≠ p.preset_name_)
    (hkeys : (p.parameters_.map Prod.fst).Nodup)
    (hadd : addNewPreset effectRecurse rowRecurse db p = some (true, db3)) :
    ((getPresetParameters db3 p.effect_name_ p.preset_name_).map Prod.fst).Nodup ∧
    ∀ row : String,
      (getPresetParameters db3 p.effect_name_ p.preset_name_).lookup row =
        match p.parameters_.lookup row with
        | some params =>
          if params = [] then none
          else some (params.map fun q => (q.1, QVariant.fromString q.2.toString))
        | none => none := by
  refine ⟨nodup_keys_foldl_appendAt _ [] List.nodup_nil, ?_⟩
  obtain ⟨db1, e_id, hE, hpos, -, hR⟩ := addNewPreset_steps _ _ _ _ _ _ hadd
  obtain ⟨f1, f2, f3, f4, e0, he0, he0id, he0name⟩ := effectId_spec hE hpos hwf.effects_key
  -- the preset row just inserted is the one `presetId` finds
  have hfind : db1.presets.find? (fun r => r.name == p.preset_name_) = none := by
    rw [f1, List.find?_eq_none]
    intro pr hpr
    simpa using hnew pr hpr
  have hP : presetId { db1 with presets := db1.presets ++
      [⟨nextId (db1.presets.map (·.id)), p.preset_name_, e_id⟩] } p.preset_name_
      = (nextId (db1.presets.map (·.id)) : Int) := by
    simp [presetId, List.find?_append, hfind]
  rw [hP] at hR
  have hkey2 : ({ db1 with presets := db1.presets ++
      [⟨nextId (db1.presets.map (·.id)), p.preset_name_, e_id⟩] } : Database).effect_rows.Pairwise
      fun a b => a.id < b.id := by
    show db1.effect_rows.Pairwise _
    rw [f2]
    exact hwf.effect_rows_key
  obtain ⟨g1, g2, -, g4, added, g5, g6⟩ := addRows_spec _ _ _ _ _ _ hR hkey2
  simp only at g1 g2 g5
  have hpresets : db3.presets.Pairwise fun a b => a.id < b.id := by
    rw [g2]
    refine pairwise_append_next PresetsRow.id _ _ ?_ rfl
    rw [f1]
    exact hwf.presets_key
  have heffects : db3.effects.Pairwise fun a b => a.id < b.id := by
    rw [g1]
    exact f4
  -- the result set of the query
  have hjoin : joinPresetParameters db3 p.preset_name_ p.effect_name_ =
      (p.parameters_.flatMap fun rp => rp.2.map fun q => (rp.1, q)).map
        fun t => (⟨t.2.1, t.2.2.toString, t.2.2.type, t.1,
          (selectEffectRowId db3.effect_rows t.1 e_id).toNat⟩ : ParameterRecord) := by
    unfold joinPresetParameters
    rw [g5, List.flatMap_append]
    have hold : db1.preset_parameter.flatMap (joinOne db3 p.preset_name_ p.effect_name_) = [] := by
      rw [List.flatMap_eq_nil_iff]
      intro pp hpp
      apply joinOne_eq_nil
      intro pr hpr hid
      rw [g2, List.mem_append, List.mem_singleton] at hpr
      rcases hpr with hpr | hpr
      · rw [f1] at hpr
        exact hnew pr hpr
      · exfalso
        rw [f3] at hpp
        obtain ⟨pr2, hpr2, hid2⟩ := hwf.p_id_references pp hpp
        have hlt : pr2.id < nextId (db1.presets.map (·.id)) := by
          rw [f1]
          exact lt_nextId (List.mem_map_of_mem PresetsRow.id hpr2)
        rw [hpr] at hid
        simp only at hid
        omega
    rw [hold, List.nil_append]
    refine flatMap_of_forall₂ ?_ g6
    intro n t hn
    obtain ⟨n1, n2, n3, n4, n5, n6⟩ := hn
    obtain ⟨er0, her0, her0id, her0name⟩ := selectEffectRowId_found n6
    have hpr := filter_key_eq_singleton PresetsRow.id db3.presets hpresets
      ⟨nextId (db1.presets.map (·.id)), p.preset_name_, e_id⟩
      (by rw [g2]; simp) n.p_id n4
    have he := filter_key_eq_singleton EffectsRow.id db3.effects heffects e0
      (by rw [g1]; exact he0) e_id he0id
    have her := filter_key_eq_singleton EffectRowsRow.id db3.effect_rows g4 er0 her0 n.er_id
      (by rw [n5, her0id])
    rw [joinOne_eq_singleton db3 p.preset_name_ p.effect_name_ n _ e0 er0 hpr rfl he he0name her]
    rw [n1, n2, n3, her0name, her0id]
    rfl
  intro row
  unfold getPresetParameters
  rw [hjoin, lookup_foldl_appendAt]
  rw [filter_orderByRowId (fun rec => rec.row_name == row)]
  · rw [List.filter_map]
    have hcomp : ((fun rec : ParameterRecord => rec.row_name == row) ∘
        fun t : String × (String × QVariant) => (⟨t.2.1, t.2.2.toString, t.2.2.type, t.1,
          (selectEffectRowId db3.effect_rows t.1 e_id).toNat⟩ : ParameterRecord))
        = fun t => t.1 == row := rfl
    rw [hcomp, filter_pairs_eq _ _ hkeys]
    cases hl : p.parameters_.lookup row with
    | none => simp
    | some params =>
      cases params with
      | nil => simp
      | cons q rest => simp
  · intro a ha b hb hpa hpb
    rw [List.mem_map] at ha hb
    obtain ⟨ta, _, rfl⟩ := ha
    obtain ⟨tb, _, rfl⟩ := hb
    simp only [beq_iff_eq] at hpa hpb
    simp only [hpa, hpb]

theorem wellFormed_empty : Database.empty.WellFormed :=
  ⟨List.Pairwise.nil, List.Pairwise.nil, List.Pairwise.nil, fun _ h => by cases h⟩

/-- Witness for C10: `presetBlurSoft` stored on a new file and read back. -/
theorem addNewPreset_getPresetParameters_witness :
    addNewPreset true true Database.empty presetBlurSoft = some (true, storeBlurSoft) ∧
    (getPresetParameters storeBlurSoft "Blur" "Soft").lookup "radius" =
      some [("x", QVariant.fromString "1.5"), ("y", QVariant.fromString "7")] ∧
    (getPresetParameters storeBlurSoft "Blur" "Soft").lookup "mode" =
      some [("kind", QVariant.fromString "box")] ∧
    (getPresetParameters storeBlurSoft "Blur" "Soft").lookup "other" = none := by
  have hadd : addNewPreset true true Database.empty presetBlurSoft = some (true, storeBlurSoft) := by
    decide
  have h := addNewPreset_getPresetParameters true true Database.empty storeBlurSoft
    presetBlurSoft wellFormed_empty (fun _ h => by cases h) (by decide) hadd
  exact ⟨hadd, h.2 "radius", h.2 "mode", h.2 "other"⟩

/-- C10 as stated fails in two ways. (1) `presetGlowSoft` is added to a store
that holds no preset "Soft" for effect "Glow" (only one for "Blur"):
`addNewPreset` returns true, yet `getPresetParameters("Glow", "Soft")` is empty,
because `presetId` found the preset of "Blur" and the parameter went there.
(2) `presetEmptyRow` is added to a new file: `addNewPreset` returns true and the
row "radius" of the preset gets no entry. -/
theorem addNewPreset_roundtrip_counterexample :
    (storeBlurSoft.WellFormed ∧
      "Soft" ∉ getPresets storeBlurSoft "Glow" ∧
      addNewPreset true true storeBlurSoft presetGlowSoft = some (true, storeBlurGlow) ∧
      presetGlowSoft.parameters_.lookup "radius" = some [("x", ⟨6, "2.5"⟩)] ∧
      getPresetParameters storeBlurGlow "Glow" "Soft" = [] ∧
      (getPresetParameters storeBlurGlow "Blur" "Soft").lookup "radius" =
        some [("x", QVariant.fromString "1.5"), ("y", QVariant.fromString "7"),
          ("x", QVariant.fromString "2.5")]) ∧
    (getPresets Database.empty "Blur" = [] ∧
      (addNewPreset true true Database.empty presetEmptyRow).map Prod.fst = some true ∧
      presetEmptyRow.parameters_.lookup "radius" = some [] ∧
      (addNewPreset true true Database.empty presetEmptyRow).map
        (fun r => getPresetParameters r.2 "Blur" "Bare") = some []) := by
  refine ⟨⟨⟨?_, ?_, ?_, ?_⟩, ?_, ?_, ?_, ?_, ?_⟩, ?_, ?_, ?_, ?_⟩
  all_goals decide

theorem effectId_true_nonneg (db : Database) (name : String) :
    (effectId db name true).2 ≥ 0 := by
  unfold effectId
  cases hf : db.effects.find? (fun r => r.name == name) with
  | some r => simp
  | none => simp [selectEffectId, List.find?_append, hf]

theorem effectRowId_true_nonneg (db : Database) (name : String) (e : Int) :
    (effectRowId db name e true).2 ≥ 0 := by
  unfold effectRowId
  cases hf : db.effect_rows.find? (fun r => r.name == name && r.e_id == e) with
  | some r => simp
  | none => simp [selectEffectRowId, List.find?_append, hf]

theorem addRows_true_returns (p_id e_id : Int) (rows : EffectParametersType) (db : Database) :
    ∃ db3, addRows true db p_id e_id rows = some db3 := by
  induction rows generalizing db with
  | nil => exact ⟨db, rfl⟩
  | cons rp rest ih =>
    obtain ⟨row, params⟩ := rp
    obtain ⟨db2, _, a1, _⟩ :=
      addParameters_spec p_id (effectRowId db row e_id true).2 params (effectRowId db row e_id true).1
    obtain ⟨db3, h3⟩ := ih db2
    refine ⟨db3, ?_⟩
    simp only [addRows, effectRowId_true_nonneg db row e_id, if_true, a1]
    exact h3

/-- With both `recurse` defaults true, `addNewPreset` passes its assertions and
returns true in every state. -/
theorem addNewPreset_returns_true (db : Database) (p : EffectPreset) :
    ∃ db3, addNewPreset true true db p = some (true, db3) := by
  cases hE : effectId db p.effect_name_ true with
  | mk db1 e_id =>
    have hpos : e_id ≥ 0 := by
      have := effectId_true_nonneg db p.effect_name_
      rw [hE] at this
      exact this
    have hp : presetId { db1 with presets := db1.presets ++
        [⟨nextId (db1.presets.map (·.id)), p.preset_name_, e_id⟩] } p.preset_name_ ≥ 0 := by
      unfold presetId
      cases hf : db1.presets.find? (fun r => r.name == p.preset_name_) with
      | some r => simp [List.find?_append, hf]
      | none => simp [List.find?_append, hf]
    obtain ⟨db3, h3⟩ := addRows_true_returns
      (presetId { db1 with presets := db1.presets ++
        [⟨nextId (db1.presets.map (·.id)), p.preset_name_, e_id⟩] } p.preset_name_)
      e_id p.parameters_
      { db1 with presets := db1.presets ++
        [⟨nextId (db1.presets.map (·.id)), p.preset_name_, e_id⟩] }
    refine ⟨db3, ?_⟩
    unfold addNewPreset
    rw [hE]
    simp only [hpos, if_true, hp, h3]

theorem forall₂_left_all {α β : Type} {R : α → β → Prop} {P : α → Prop}
    (hR : ∀ a b, R a b → P a) {l : List α} {t : List β} (h : List.Forall₂ R l t) :
    ∀ a ∈ l, P a := by
  induction h with
  | nil =>
    intro a ha
    cases ha
  | cons hab _ ih =>
    intro a ha
    rcases List.mem_cons.mp ha with rfl | ha
    · exact hR _ _ hab
    · exact ih a ha

/-- The schema's constraints survive `addNewPreset`, so they hold in every state
reached from a new file. -/
theorem addNewPreset_wellFormed (effectRecurse rowRecurse : Bool) (db db3 : Database)
    (p : EffectPreset) (flag : Bool) (hwf : db.WellFormed)
    (hadd : addNewPreset effectRecurse rowRecurse db p = some (flag, db3)) :
    db3.WellFormed := by
  obtain ⟨db1, e_id, hE, hpos, -, hR⟩ := addNewPreset_steps _ _ _ _ _ _ hadd
  obtain ⟨f1, f2, f3, f4, -⟩ := effectId_spec hE hpos hwf.effects_key
  have hkey2 : ({ db1 with presets := db1.presets ++
      [⟨nextId (db1.presets.map (·.id)), p.preset_name_, e_id⟩] } : Database).effect_rows.Pairwise
      fun a b => a.id < b.id := by
    show db1.effect_rows.Pairwise _
    rw [f2]
    exact hwf.effect_rows_key
  obtain ⟨g1, g2, -, g4, added, g5, g6⟩ := addRows_spec _ _ _ _ _ _ hR hkey2
  simp only at g1 g2 g5
  -- the id bound to the new parameter rows is the id of a stored preset
  have hfound : ∃ pr ∈ db3.presets,
      presetId { db1 with presets := db1.presets ++
        [⟨nextId (db1.presets.map (·.id)), p.preset_name_, e_id⟩] } p.preset_name_
        = (pr.id : Int) := by
    rw [g2]
    unfold presetId
    cases hf : db1.presets.find? (fun r => r.name == p.preset_name_) with
    | some r =>
      refine ⟨r, List.mem_append_left _ (List.mem_of_find?_eq_some hf), ?_⟩
      simp [List.find?_append, hf]
    | none =>
      refine ⟨⟨nextId (db1.presets.map (·.id)), p.preset_name_, e_id⟩, by simp, ?_⟩
      simp [List.find?_append, hf]
  refine ⟨by rw [g1]; exact f4, ?_, g4, ?_⟩
  · rw [g2]
    refine pairwise_append_next PresetsRow.id _ _ ?_ rfl
    rw [f1]
    exact hwf.presets_key
  · intro pp hpp
    rw [g5, List.mem_append] at hpp
    rcases hpp with hpp | hpp
    · rw [f3] at hpp
      obtain ⟨pr, hpr, hid⟩ := hwf.p_id_references pp hpp
      refine ⟨pr, ?_, hid⟩
      rw [g2, f1]
      exact List.mem_append_left _ hpr
    · obtain ⟨pr, hpr, hid⟩ := hfound
      have hp : pp.p_id = presetId { db1 with presets := db1.presets ++
          [⟨nextId (db1.presets.map (·.id)), p.preset_name_, e_id⟩] } p.preset_name_ :=
        forall₂_left_all (P := fun n : PresetParameterRow => n.p_id = _)
          (fun a b hab => hab.2.2.2.1) g6 pp hpp
      exact ⟨pr, hpr, hp.trans hid⟩

end Olive
